import Mathlib

/-!
Verification development for the datadash tabular data engine:
column profiling (`analyzeColumn` / `analyzeSheetData`), join suggestion
(`suggestJoins`) and the sequential hash-join executor (`executeDataModel`),
shallowly embedded from `src/types.ts`, `src/unnamed/part_000` and
`src/datadash (1)/services/joinEngine.ts`.

Modelling conventions:
* JS numbers are modelled as `Int` (all values relevant to the claims are
  integral); floating-point-only quantities (the `mean` statistic, the
  measure-scoring ratio) are modelled rationally or omitted, with a comment
  at each site.
* A JS `Date` object is modelled by its epoch-milliseconds value.
* A JS object used as a row (`DataRow`) is an association list in key
  insertion order; `row[k]` on a missing key yields `undefined`.
* A JS `Map` is an association list in key insertion order where `set`
  overwrites in place, as the spec of `Map` requires.
* Host string parsing (`Number(s)`, `Date.parse(s)`) is abstracted as
  explicit function parameters of the profiler.
-/

namespace DataDash

/-- `CellValue` mirrors `types.ts`:
`string | number | boolean | Date | null | undefined`. -/
inductive CellValue where
  | null
  | undef
  | str (s : String)
  | num (n : Int)
  | bool (b : Bool)
  | date (ms : Int)
deriving DecidableEq, Repr

/-- JS `String(v)` coercion, used on both sides of a join key.
`String(null) = "null"`, `String(undefined) = "undefined"`.
For a `Date`, JS produces a host/timezone-dependent text; no claim joins on
a `Date` key, so it is modelled by an injective placeholder. -/
def cellToString : CellValue → String
  | .null => "null"
  | .undef => "undefined"
  | .str s => s
  | .num n => toString n
  | .bool b => if b then "true" else "false"
  | .date ms => "[Date " ++ toString ms ++ "]"

/-- A row record: column name to cell value, in key insertion order. -/
abbrev DataRow := List (String × CellValue)

/-- JS `row[k]`: the value at key `k`, `undefined` when the key is absent. -/
def rowGet (r : DataRow) (k : String) : CellValue :=
  match r.find? (fun p => p.1 == k) with
  | some p => p.2
  | none => CellValue.undef

/-- JS `row[k] = v`: overwrite in place when the key exists, else append. -/
def rowSet (r : DataRow) (k : String) (v : CellValue) : DataRow :=
  if r.any (fun p => p.1 == k) then
    r.map (fun p => if p.1 == k then (k, v) else p)
  else r ++ [(k, v)]

/-- `ColumnType` from `types.ts`. -/
inductive ColumnType where
  | STRING
  | NUMBER
  | DATE
  | BOOLEAN
  | UNKNOWN
deriving DecidableEq, Repr

/-- `ColumnProfile` from `types.ts`.  `min`/`max` hold a number or a date;
both are modelled as `Int` (a date by its epoch milliseconds).  The
floating-point `mean` field is not modelled (no claim mentions it); the
`outliers` field is never produced by the profiler and is omitted. -/
structure ColumnProfile where
  name : String
  type : ColumnType
  nullCount : Nat
  uniqueCount : Nat
  min : Option Int := none
  max : Option Int := none
  sum : Option Int := none
  exampleValues : List CellValue := []
deriving DecidableEq, Repr

/-- `DataSet` from `types.ts`. -/
structure DataSet where
  fileName : String
  rows : List DataRow
  columns : List ColumnProfile
  rowCount : Nat
  primaryDateColumn : Option String := none
  primaryMeasureColumn : Option String := none
  dimensions : List String
deriving DecidableEq, Repr

/-- `Table` from `types.ts` (`DataSet` plus `id` and `tableName`). -/
structure Table extends DataSet where
  id : String
  tableName : String
deriving DecidableEq, Repr

/-- `TableCollection = Record<string, Table>`: JS object keys are unique and
ordered, modelled as an association list with first-match lookup. -/
abbrev TableCollection := List (String × Table)

/-- JS `tables[id]` on the collection record. -/
def tcGet (tables : TableCollection) (id : String) : Option Table :=
  (tables.find? (fun p => p.1 == id)).map (fun p => p.2)

inductive JoinType where
  | LEFT
  | INNER
deriving DecidableEq, Repr

/-- `JoinConfig` from `types.ts`. -/
structure JoinConfig where
  id : String
  rightTableId : String
  leftColumn : String
  rightColumn : String
  joinType : JoinType
deriving DecidableEq, Repr

/-- `DataModel` from `types.ts`. -/
structure DataModel where
  baseTableId : String
  joins : List JoinConfig
deriving DecidableEq, Repr

/-! ## Join engine (`services/joinEngine.ts`) -/

/-- JS `Map.set`: overwrite in place when the key exists, else append. -/
def mapSet (m : List (String × DataRow)) (k : String) (v : DataRow) :
    List (String × DataRow) :=
  if m.any (fun p => p.1 == k) then
    m.map (fun p => if p.1 == k then (k, v) else p)
  else m ++ [(k, v)]

/-- JS `Map.get`. -/
def mapGet (m : List (String × DataRow)) (k : String) : Option DataRow :=
  (m.find? (fun p => p.1 == k)).map (fun p => p.2)

/-- Step A of `executeDataModel`: the hash map over the right table,
`rightTable.rows.forEach(row => rightMap.set(String(row[join.rightColumn]), row))`. -/
def buildRightMap (rows : List DataRow) (rightColumn : String) :
    List (String × DataRow) :=
  rows.foldl (fun m row => mapSet m (cellToString (rowGet row rightColumn)) row) []

/-- The column-renaming scheme of step B: `tableName ++ "." ++ columnName`. -/
def qualName (tableName colName : String) : String :=
  tableName ++ "." ++ colName

/-- Match branch of step C: `{...leftRow}` then
`mergedRow[prefixed] = rightRow[col.name]` for each right column in order. -/
def mergeMatch (tn : String) (rightCols : List ColumnProfile)
    (rightRow leftRow : DataRow) : DataRow :=
  rightCols.foldl
    (fun m col => rowSet m (qualName tn col.name) (rowGet rightRow col.name))
    leftRow

/-- No-match LEFT branch of step C: null-fill every prefixed right column. -/
def mergeNullFill (tn : String) (rightCols : List ColumnProfile)
    (leftRow : DataRow) : DataRow :=
  rightCols.foldl
    (fun m col => rowSet m (qualName tn col.name) CellValue.null)
    leftRow

/-- The body of the inner loop of step C for one accumulator row: `some`
is a push onto `newRows`, `none` is the INNER-join drop. -/
def joinRow (join : JoinConfig) (rt : Table)
    (rightMap : List (String × DataRow)) (leftRow : DataRow) : Option DataRow :=
  match mapGet rightMap (cellToString (rowGet leftRow join.leftColumn)) with
  | some rightRow => some (mergeMatch rt.tableName rt.columns rightRow leftRow)
  | none =>
    if join.joinType = JoinType.LEFT then
      some (mergeNullFill rt.tableName rt.columns leftRow)
    else none

/-- The loop state of `executeDataModel`:
`resultRows`, `resultColumns`, `currentDimensions`. -/
structure JoinAcc where
  rows : List DataRow
  columns : List ColumnProfile
  dimensions : List String
deriving DecidableEq, Repr

/-- One iteration of the `for (const join of model.joins)` loop.  A missing
right table is `continue`: the accumulator is returned unchanged. -/
def applyJoin (tables : TableCollection) (acc : JoinAcc) (join : JoinConfig) :
    JoinAcc :=
  match tcGet tables join.rightTableId with
  | none => acc
  | some rt =>
    let rightMap := buildRightMap rt.rows join.rightColumn
    let rightColsRenamed :=
      rt.columns.map (fun col => { col with name := qualName rt.tableName col.name })
    { rows := acc.rows.filterMap (joinRow join rt rightMap),
      columns := acc.columns ++ rightColsRenamed,
      dimensions := acc.dimensions ++ rt.dimensions.map (qualName rt.tableName) }

/-- `executeDataModel` from `services/joinEngine.ts`.  The `throw` on a
missing base table is an `Except.error`.  `{...r}` is a shallow copy, which
on immutable values is the row itself. -/
def executeDataModel (tables : TableCollection) (model : DataModel) :
    Except String DataSet :=
  match tcGet tables model.baseTableId with
  | none => Except.error "Base table not found"
  | some baseTable =>
    let acc0 : JoinAcc :=
      { rows := baseTable.rows.map (fun r => r),
        columns := baseTable.columns,
        dimensions := baseTable.dimensions }
    let acc := model.joins.foldl (applyJoin tables) acc0
    Except.ok
      { fileName := "Model: " ++ baseTable.tableName ++ " + " ++
          toString model.joins.length ++ " joins",
        rows := acc.rows,
        columns := acc.columns,
        rowCount := acc.rows.length,
        primaryDateColumn := baseTable.primaryDateColumn,
        primaryMeasureColumn := baseTable.primaryMeasureColumn,
        dimensions := acc.dimensions }

/-! ## Column profiler (`src/unnamed/part_000`)

Host string parsing is abstracted: `pn : String → Option Int` models
`Number(s)` (`none` exactly when `isNaN(Number(s))`), `pd : String → Option Int`
models `Date.parse(s)` (`none` exactly when the result is `NaN`). -/

/-- The absence test of the profiling loop:
`val === null || val === undefined || val === ''`. -/
def isAbsent : CellValue → Bool
  | .null => true
  | .undef => true
  | .str s => s == ""
  | _ => false

/-- The per-value classification of the profiling loop (`instanceof Date`,
`typeof number`, `typeof boolean`, then the string-parsing branch).  Only
present values reach this in the source; `null`/`undefined` are mapped to
`STRING` as an arbitrary total extension never exercised. -/
def classifyCell (pn pd : String → Option Int) : CellValue → ColumnType
  | .date _ => ColumnType.DATE
  | .num _ => ColumnType.NUMBER
  | .bool _ => ColumnType.BOOLEAN
  | .str s =>
    if (pn s).isSome && s != "" then ColumnType.NUMBER
    else if (pd s).isSome && s.length > 5 then ColumnType.DATE
    else ColumnType.STRING
  | .null => ColumnType.STRING
  | .undef => ColumnType.STRING

/-- The mutable loop state of `analyzeColumn`: `nulls`, `values`, the
insertion-ordered distinct set, and `typeCounts`.  (A JS `Set` holds `Date`
objects by reference; dates are modelled by value, which no claim touches.) -/
structure ColScan where
  nulls : Nat := 0
  values : List CellValue := []
  distinct : List CellValue := []
  nSTRING : Nat := 0
  nNUMBER : Nat := 0
  nDATE : Nat := 0
  nBOOLEAN : Nat := 0
deriving DecidableEq, Repr

/-- One iteration of the `for (const row of rows)` loop of `analyzeColumn`. -/
def scanStep (pn pd : String → Option Int) (key : String) (st : ColScan)
    (row : DataRow) : ColScan :=
  let val := rowGet row key
  if isAbsent val then { st with nulls := st.nulls + 1 }
  else
    let st' := { st with
      values := st.values ++ [val],
      distinct := if st.distinct.contains val then st.distinct
                  else st.distinct ++ [val] }
    match classifyCell pn pd val with
    | ColumnType.DATE => { st' with nDATE := st'.nDATE + 1 }
    | ColumnType.NUMBER => { st' with nNUMBER := st'.nNUMBER + 1 }
    | ColumnType.BOOLEAN => { st' with nBOOLEAN := st'.nBOOLEAN + 1 }
    | _ => { st' with nSTRING := st'.nSTRING + 1 }

/-- The majority-type decision of `analyzeColumn`.  The float comparisons
`count > values.length * 0.8` and `count > values.length * 0.9` are modelled
by the exact rational forms `5*count > 4*len` and `10*count > 9*len`; at
every boundary a claim exercises, the double-precision product rounds so
that the two agree. -/
def decideType (st : ColScan) : ColumnType :=
  if 5 * st.nDATE > 4 * st.values.length then ColumnType.DATE
  else if 5 * st.nNUMBER > 4 * st.values.length then ColumnType.NUMBER
  else if 10 * st.nBOOLEAN > 9 * st.values.length then ColumnType.BOOLEAN
  else ColumnType.STRING

/-- JS numeric coercion `Number(v)` on cell values (`none` for `NaN`). -/
def jsNumber (pn : String → Option Int) : CellValue → Option Int
  | .num n => some n
  | .bool b => some (if b then 1 else 0)
  | .date ms => some ms
  | .str s => pn s
  | .null => some 0
  | .undef => none

/-- The date coercion `v instanceof Date ? v.getTime() : new Date(v).getTime()`
(`none` for an invalid date). -/
def jsDateMs (pd : String → Option Int) : CellValue → Option Int
  | .date ms => some ms
  | .str s => pd s
  | .num n => some n
  | .bool b => some (if b then 1 else 0)
  | .null => some 0
  | .undef => none

/-- `Math.min(...xs)` on a non-empty list. -/
def listMin : List Int → Option Int
  | [] => none
  | x :: xs => some (xs.foldl Min.min x)

/-- `Math.max(...xs)` on a non-empty list. -/
def listMax : List Int → Option Int
  | [] => none
  | x :: xs => some (xs.foldl Max.max x)

/-- `analyzeColumn` from `src/unnamed/part_000`.  The floating-point `mean`
is not modelled. -/
def analyzeColumn (pn pd : String → Option Int) (key : String)
    (rows : List DataRow) : ColumnProfile :=
  let st := rows.foldl (scanStep pn pd key) {}
  let t := decideType st
  let stats : Option Int × Option Int × Option Int :=
    if t = ColumnType.NUMBER then
      let nv := st.values.filterMap (jsNumber pn)
      (listMin nv, listMax nv,
       if nv.isEmpty then none else some (nv.foldl (fun a b => a + b) 0))
    else if t = ColumnType.DATE then
      let ds := st.values.filterMap (jsDateMs pd)
      (listMin ds, listMax ds, none)
    else (none, none, none)
  { name := key,
    type := t,
    nullCount := st.nulls,
    uniqueCount := st.distinct.length,
    min := stats.1,
    max := stats.2.1,
    sum := stats.2.2,
    exampleValues := st.distinct.take 5 }

/-- The informativeness score `uniqueCount * (1 - nullCount/len)` of the
measure heuristic, in the exact rational form `uniqueCount * (len - nullCount)`
(the comparison is shared-denominator; no claim touches its boundaries). -/
def measureScore (len : Nat) (c : ColumnProfile) : Nat :=
  c.uniqueCount * (len - c.nullCount)

/-- `analyzeSheetData` from `src/unnamed/part_000`.  The source is only
called on a non-empty `rawRows` (it reads `rawRows[0]`); for `[]` the model
reads an empty key set.  JS `Array.prototype.sort` is stable; both sorts are
modelled by the stable `List.insertionSort`. -/
def analyzeSheetData (pn pd : String → Option Int) (rawRows : List DataRow)
    (fileName : String) : DataSet :=
  let keys := (rawRows.headD []).map (fun p => p.1)
  let columns := keys.map (fun key => analyzeColumn pn pd key rawRows)
  let dateCol :=
    (columns.find? (fun c => c.type == ColumnType.DATE && c.uniqueCount > 1)).map
      (fun c => c.name)
  let numberCols :=
    (columns.filter (fun c => c.type == ColumnType.NUMBER)).insertionSort
      (fun a b => measureScore rawRows.length b ≤ measureScore rawRows.length a)
  let measureCol := numberCols.head?.map (fun c => c.name)
  let dimensions :=
    ((columns.filter (fun c => c.type == ColumnType.STRING &&
        c.uniqueCount ≤ 100 &&
        10 * c.uniqueCount < 9 * rawRows.length)).insertionSort
      (fun a b => a.uniqueCount ≤ b.uniqueCount)).map (fun c => c.name)
  { fileName := fileName,
    rows := rawRows,
    columns := columns,
    rowCount := rawRows.length,
    primaryDateColumn := dateCol,
    primaryMeasureColumn := measureCol,
    dimensions := dimensions }

/-! ## Join suggester (`src/unnamed/part_000`) -/

/-- JS `String.prototype.toLowerCase` on ASCII (as all column and table
names here are); the builtin lowercase map is not kernel-reducible. -/
def charToLower (c : Char) : Char :=
  if 'A' <= c /\ c <= 'Z' then Char.ofNat (c.toNat + 32) else c

def strToLower (s : String) : String := (String.mk (s.data.map charToLower))

/-- `String.prototype.includes`: `sub` occurs contiguously in `s`. -/
def strContains (s sub : String) : Bool :=
  (List.range (s.data.length + 1)).any
    (fun i => (s.data.drop i).take sub.data.length == sub.data)

/-- The near-unique-key test `uniqueCount / rowCount > 0.9`, in the exact
rational form.  For `rowCount = 0` JS yields `NaN > 0.9 = false` when
`uniqueCount = 0` and `Infinity > 0.9 = true` otherwise, which coincides
with `10 * u > 0`. -/
def nearUnique (uniqueCount rowCount : Nat) : Bool :=
  10 * uniqueCount > 9 * rowCount

/-- Strategy 1 of `suggestJoins`: case-insensitive exact column-name match
with a near-unique right column; the last qualifying pair in the nested
iteration order wins.  `crypto.randomUUID()` is host randomness, modelled
by the constant `""` (no claim depends on `id`). -/
def strategy1 (baseTable dimTable : Table) : Option JoinConfig :=
  baseTable.columns.foldl (fun best baseCol =>
    dimTable.columns.foldl (fun best dimCol =>
      if strToLower baseCol.name == strToLower dimCol.name then
        if nearUnique dimCol.uniqueCount dimTable.rowCount then
          some { id := "", rightTableId := dimTable.id,
                 leftColumn := baseCol.name, rightColumn := dimCol.name,
                 joinType := JoinType.LEFT }
        else best
      else best) best) none

/-- Strategy 2 of `suggestJoins`: foreign-key naming convention. -/
def strategy2 (baseTable dimTable : Table) : Option JoinConfig :=
  let tn := strToLower dimTable.tableName
  match dimTable.columns.find? (fun c =>
      strToLower c.name == "id" ||
      strToLower c.name == tn ++ "_id" ||
      strToLower c.name == tn.dropRight 1 ++ "_id") with
  | none => none
  | some dimIdCol =>
    if nearUnique dimIdCol.uniqueCount dimTable.rowCount then
      let fkName := tn.dropRight 1 ++ "_id"
      match baseTable.columns.find? (fun c =>
          strContains (strToLower c.name) tn || strToLower c.name == fkName) with
      | none => none
      | some matchingBaseCol =>
        some { id := "", rightTableId := dimTable.id,
               leftColumn := matchingBaseCol.name,
               rightColumn := dimIdCol.name,
               joinType := JoinType.LEFT }
    else none

/-- `suggestJoins` from `src/unnamed/part_000`. -/
def suggestJoins (baseTableId : String) (tables : TableCollection) :
    List JoinConfig :=
  match tcGet tables baseTableId with
  | none => []
  | some baseTable =>
    let potentialDimensions :=
      (tables.map (fun p => p.2)).filter (fun t => t.id != baseTableId)
    potentialDimensions.foldl (fun suggestions dimTable =>
      let bestJoin :=
        match strategy1 baseTable dimTable with
        | some j => some j
        | none => strategy2 baseTable dimTable
      match bestJoin with
      | some j => suggestions ++ [j]
      | none => suggestions) []

/-! ## Heap-level join engine (for the no-mutation contract)

JS rows are heap objects reached by reference.  To state the frame property
"`executeDataModel` never mutates its inputs" the engine is re-embedded with
an explicit object heap: a row object is an address (index) into a heap of
row values, the input tables hold addresses, every `{...row}` spread
allocates a fresh address, and the engine touches existing addresses only by
reading.  The frame theorem shows the output heap extends the input heap, so
every address owned by the input tables still holds its original row. -/

abbrev Heap := List DataRow

/-- Dereference a row object. -/
def heapRead (h : Heap) (a : Nat) : DataRow := h.getD a []

/-- Allocate a fresh row object. -/
def heapAlloc (h : Heap) (r : DataRow) : Heap × Nat := (h ++ [r], h.length)

/-- `Table` with its rows held by reference. -/
structure TableR where
  id : String
  tableName : String
  rowAddrs : List Nat
  columns : List ColumnProfile
  rowCount : Nat
  primaryDateColumn : Option String := none
  primaryMeasureColumn : Option String := none
  dimensions : List String
deriving DecidableEq, Repr

abbrev TableCollectionR := List (String × TableR)

def tcGetR (tables : TableCollectionR) (id : String) : Option TableR :=
  (tables.find? (fun p => p.1 == id)).map (fun p => p.2)

/-- `DataSet` with its rows held by reference. -/
structure DataSetR where
  fileName : String
  rowAddrs : List Nat
  columns : List ColumnProfile
  rowCount : Nat
  primaryDateColumn : Option String := none
  primaryMeasureColumn : Option String := none
  dimensions : List String
deriving DecidableEq, Repr

/-- Step 1 at heap level: `baseTable.rows.map(r => ({...r}))` — one fresh
allocation per base row. -/
def cloneRows (h : Heap) (addrs : List Nat) : Heap × List Nat :=
  addrs.foldl
    (fun (ha : Heap × List Nat) a =>
      let h' := heapAlloc ha.1 (heapRead ha.1 a)
      (h'.1, ha.2 ++ [h'.2]))
    (h, [])

/-- Step A at heap level: the hash map stores row references. -/
def buildRightMapR (h : Heap) (rowAddrs : List Nat) (rightColumn : String) :
    List (String × Nat) :=
  rowAddrs.foldl
    (fun m a =>
      let key := cellToString (rowGet (heapRead h a) rightColumn)
      if m.any (fun p => p.1 == key) then
        m.map (fun p => if p.1 == key then (key, a) else p)
      else m ++ [(key, a)])
    []

def mapGetR (m : List (String × Nat)) (k : String) : Option Nat :=
  (m.find? (fun p => p.1 == k)).map (fun p => p.2)

/-- Step C body at heap level: `{...leftRow}` plus the per-column writes
build a fresh object, allocated once fully built (it is unshared until
pushed). -/
def joinRowR (join : JoinConfig) (rt : TableR) (rightMap : List (String × Nat))
    (h : Heap) (leftAddr : Nat) : Heap × Option Nat :=
  let leftRow := heapRead h leftAddr
  match mapGetR rightMap (cellToString (rowGet leftRow join.leftColumn)) with
  | some ra =>
    let h' := heapAlloc h (mergeMatch rt.tableName rt.columns (heapRead h ra) leftRow)
    (h'.1, some h'.2)
  | none =>
    if join.joinType = JoinType.LEFT then
      let h' := heapAlloc h (mergeNullFill rt.tableName rt.columns leftRow)
      (h'.1, some h'.2)
    else (h, none)

structure JoinAccR where
  rows : List Nat
  columns : List ColumnProfile
  dimensions : List String
deriving DecidableEq, Repr

/-- One join iteration at heap level. -/
def applyJoinR (tables : TableCollectionR) (st : Heap × JoinAccR)
    (join : JoinConfig) : Heap × JoinAccR :=
  match tcGetR tables join.rightTableId with
  | none => st
  | some rt =>
    let rightMap := buildRightMapR st.1 rt.rowAddrs join.rightColumn
    let hrows :=
      st.2.rows.foldl
        (fun (hn : Heap × List Nat) a =>
          match joinRowR join rt rightMap hn.1 a with
          | (h', some a') => (h', hn.2 ++ [a'])
          | (h', none) => (h', hn.2))
        (st.1, [])
    (hrows.1,
     { rows := hrows.2,
       columns := st.2.columns ++
         rt.columns.map (fun col => { col with name := qualName rt.tableName col.name }),
       dimensions := st.2.dimensions ++ rt.dimensions.map (qualName rt.tableName) })

/-- `executeDataModel` at heap level. -/
def executeDataModelR (h : Heap) (tables : TableCollectionR)
    (model : DataModel) : Except String (Heap × DataSetR) :=
  match tcGetR tables model.baseTableId with
  | none => Except.error "Base table not found"
  | some baseTable =>
    let init := cloneRows h baseTable.rowAddrs
    let acc0 : JoinAccR :=
      { rows := init.2,
        columns := baseTable.columns,
        dimensions := baseTable.dimensions }
    let st := model.joins.foldl (applyJoinR tables) (init.1, acc0)
    Except.ok
      (st.1,
       { fileName := "Model: " ++ baseTable.tableName ++ " + " ++
           toString model.joins.length ++ " joins",
         rowAddrs := st.2.rows,
         columns := st.2.columns,
         rowCount := st.2.rows.length,
         primaryDateColumn := baseTable.primaryDateColumn,
         primaryMeasureColumn := baseTable.primaryMeasureColumn,
         dimensions := st.2.dimensions })

/-- `h'` is `h` with only fresh allocations appended. -/
def heapExtends (h h' : Heap) : Prop := ∃ e, h' = h ++ e

/-! ## Derived notions used by the claim statements -/

/-- The values of one column that the profiling loop treats as present,
in row order. -/
def presentValues (key : String) (rows : List DataRow) : List CellValue :=
  (rows.map (fun r => rowGet r key)).filter (fun v => !isAbsent v)

/-- The right tables actually found (and hence actually joined) for the
joins of a model, in join order. -/
def foundRights (tables : TableCollection) (joins : List JoinConfig) :
    List Table :=
  joins.filterMap (fun j => tcGet tables j.rightTableId)

/-- Extract the dataset of a successful run (dummy on failure; used only to
name concrete successful results). -/
def okOr (r : Except String DataSet) : DataSet :=
  match r with
  | Except.ok ds => ds
  | Except.error _ =>
    { fileName := "", rows := [], columns := [], rowCount := 0, dimensions := [] }

/-! ## Concrete fixtures (spec §8 scenarios and variations) -/

/-- A host parser accepting nothing; the fixtures use only native values. -/
def noParse : String → Option Int := fun _ => none

def mkCol (n : String) (t : ColumnType) (u : Nat) : ColumnProfile :=
  { name := n, type := t, nullCount := 0, uniqueCount := u }

def ordersRows : List DataRow :=
  [[("id", CellValue.num 1), ("cust", CellValue.str "A"), ("amt", CellValue.num 100)],
   [("id", CellValue.num 2), ("cust", CellValue.str "B"), ("amt", CellValue.num 50)]]

def ordersT : Table :=
  { fileName := "Orders", rows := ordersRows,
    columns := [mkCol "id" ColumnType.NUMBER 2, mkCol "cust" ColumnType.STRING 2,
                mkCol "amt" ColumnType.NUMBER 2],
    rowCount := 2, dimensions := ["cust"], id := "Orders", tableName := "Orders" }

def custT : Table :=
  { fileName := "Customers", rows := [[("cust", CellValue.str "A"), ("tier", CellValue.str "gold")]],
    columns := [mkCol "cust" ColumnType.STRING 1, mkCol "tier" ColumnType.STRING 1],
    rowCount := 1, dimensions := ["tier"], id := "Customers", tableName := "Customers" }

def tcAB : TableCollection := [("Orders", ordersT), ("Customers", custT)]

def jLeftCust : JoinConfig :=
  { id := "j", rightTableId := "Customers", leftColumn := "cust",
    rightColumn := "cust", joinType := JoinType.LEFT }

def modelOneJoin : DataModel := { baseTableId := "Orders", joins := [jLeftCust] }

def modelTwoJoins : DataModel :=
  { baseTableId := "Orders", joins := [jLeftCust, jLeftCust] }

/-- A collection in which `jLeftCust`'s right table is absent. -/
def tablesOnlyOrders : TableCollection := [("Orders", ordersT)]

def modelNoJoins : DataModel := { baseTableId := "Orders", joins := [] }

/-- The type cascade of `analyzeColumn` restated over independent counts of
the per-value classification, with the strict rational thresholds. -/
def thresholdType (pn pd : String → Option Int) (key : String)
    (rows : List DataRow) : ColumnType :=
  let pv := presentValues key rows
  if 5 * pv.countP (fun v => classifyCell pn pd v == ColumnType.DATE) > 4 * pv.length then
    ColumnType.DATE
  else if 5 * pv.countP (fun v => classifyCell pn pd v == ColumnType.NUMBER) > 4 * pv.length then
    ColumnType.NUMBER
  else if 10 * pv.countP (fun v => classifyCell pn pd v == ColumnType.BOOLEAN) > 9 * pv.length then
    ColumnType.BOOLEAN
  else ColumnType.STRING

/-- A column with exactly 80 percent numeric present values
(4 numbers, 1 plain string). -/
def eightyRows : List DataRow :=
  [[("x", CellValue.num 1)], [("x", CellValue.num 2)], [("x", CellValue.num 3)],
   [("x", CellValue.num 4)], [("x", CellValue.str "abc")]]

/-- Two rows whose only column holds the same string twice. -/
def constantRows : List DataRow :=
  [[("c", CellValue.str "a")], [("c", CellValue.str "a")]]

/-- Scenario E base table: a `customer_id` column, no column name shared
with the `Customers` table. -/
def scenEBase : Table :=
  { fileName := "Orders", rows := [],
    columns := [mkCol "customer_id" ColumnType.NUMBER 2, mkCol "amt" ColumnType.NUMBER 2],
    rowCount := 2, dimensions := [], id := "Orders", tableName := "Orders" }

/-- Scenario E dimension table `Customers` with near-unique column `id`. -/
def scenECust : Table :=
  { fileName := "Customers", rows := [],
    columns := [mkCol "id" ColumnType.NUMBER 10, mkCol "nm" ColumnType.STRING 9],
    rowCount := 10, dimensions := [], id := "Customers", tableName := "Customers" }

def scenETables : TableCollection := [("Orders", scenEBase), ("Customers", scenECust)]

/-- The suggestion Scenario E must produce. -/
def scenEJoin : JoinConfig :=
  { id := "", rightTableId := "Customers", leftColumn := "customer_id",
    rightColumn := "id", joinType := JoinType.LEFT }

/-- Base table whose single row has a `null` join key. -/
def nullKeyBase : Table :=
  { fileName := "B", rows := [[("k", CellValue.null), ("a", CellValue.num 1)]],
    columns := [mkCol "k" ColumnType.STRING 0, mkCol "a" ColumnType.NUMBER 1],
    rowCount := 1, dimensions := [], id := "B", tableName := "B" }

/-- Right table whose single row also has a `null` join key. -/
def nullKeyRight : Table :=
  { fileName := "R", rows := [[("k", CellValue.null), ("v", CellValue.num 7)]],
    columns := [mkCol "k" ColumnType.STRING 0, mkCol "v" ColumnType.NUMBER 1],
    rowCount := 1, dimensions := [], id := "R", tableName := "R" }

def nullKeyTables : TableCollection := [("B", nullKeyBase), ("R", nullKeyRight)]

def nullKeyJoin (jt : JoinType) : JoinConfig :=
  { id := "", rightTableId := "R", leftColumn := "k", rightColumn := "k", joinType := jt }

def nullKeyModel (jt : JoinType) : DataModel :=
  { baseTableId := "B", joins := [nullKeyJoin jt] }

/-! Heap-level fixtures: the two Orders rows live at addresses 0 and 1, the
Customers row at address 2. -/

def heap0 : Heap :=
  [[("id", CellValue.num 1), ("cust", CellValue.str "A"), ("amt", CellValue.num 100)],
   [("id", CellValue.num 2), ("cust", CellValue.str "B"), ("amt", CellValue.num 50)],
   [("cust", CellValue.str "A"), ("tier", CellValue.str "gold")]]

def ordersTR : TableR :=
  { id := "Orders", tableName := "Orders", rowAddrs := [0, 1],
    columns := [mkCol "id" ColumnType.NUMBER 2, mkCol "cust" ColumnType.STRING 2,
                mkCol "amt" ColumnType.NUMBER 2],
    rowCount := 2, dimensions := ["cust"] }

def custTR : TableR :=
  { id := "Customers", tableName := "Customers", rowAddrs := [2],
    columns := [mkCol "cust" ColumnType.STRING 1, mkCol "tier" ColumnType.STRING 1],
    rowCount := 1, dimensions := ["tier"] }

def tcR : TableCollectionR := [("Orders", ordersTR), ("Customers", custTR)]

/-- Extract the heap and dataset of a successful heap-level run. -/
def okOrR (r : Except String (Heap × DataSetR)) : Heap × DataSetR :=
  match r with
  | Except.ok p => p
  | Except.error _ =>
    ([], { fileName := "", rowAddrs := [], columns := [], rowCount := 0, dimensions := [] })

def heapRunResult : Heap × DataSetR := okOrR (executeDataModelR heap0 tcR modelOneJoin)

/-- The Scenario A result (LEFT join of Customers onto Orders). -/
def dsOneJoin : DataSet := okOr (executeDataModel tcAB modelOneJoin)

/-- The result of joining the same Customers table twice. -/
def dsTwoJoins : DataSet := okOr (executeDataModel tcAB modelTwoJoins)

/-! ## Profiling-loop invariants -/

lemma countP_not_split {α} (l : List α) (p : α → Bool) :
    l.countP p + l.countP (fun a => !p a) = l.length := by
  induction l with
  | nil => simp
  | cons a l ih =>
    simp only [List.countP_cons, List.length_cons]
    cases h : p a <;> simp [h] <;> omega

lemma scanStep_absent (pn pd : String → Option Int) (key : String)
    (st : ColScan) (row : DataRow) (h : isAbsent (rowGet row key) = true) :
    scanStep pn pd key st row = { st with nulls := st.nulls + 1 } := by
  simp [scanStep, h]

lemma scanStep_values (pn pd : String → Option Int) (key : String)
    (st : ColScan) (row : DataRow) (h : isAbsent (rowGet row key) = false) :
    (scanStep pn pd key st row).values = st.values ++ [rowGet row key] := by
  simp only [scanStep, h]
  cases hc : classifyCell pn pd (rowGet row key) <;> simp

lemma scanStep_nulls (pn pd : String → Option Int) (key : String)
    (st : ColScan) (row : DataRow) (h : isAbsent (rowGet row key) = false) :
    (scanStep pn pd key st row).nulls = st.nulls := by
  simp only [scanStep, h]
  cases hc : classifyCell pn pd (rowGet row key) <;> simp

lemma scanStep_distinct_le (pn pd : String → Option Int) (key : String)
    (st : ColScan) (row : DataRow) (h : isAbsent (rowGet row key) = false) :
    (scanStep pn pd key st row).distinct.length ≤ st.distinct.length + 1 := by
  simp only [scanStep, h]
  cases hc : classifyCell pn pd (rowGet row key) <;>
    (simp; split <;> simp)

lemma scanStep_nDATE (pn pd : String → Option Int) (key : String)
    (st : ColScan) (row : DataRow) (h : isAbsent (rowGet row key) = false) :
    (scanStep pn pd key st row).nDATE =
      st.nDATE +
        (if classifyCell pn pd (rowGet row key) == ColumnType.DATE then 1 else 0) := by
  simp only [scanStep, h]
  cases hc : classifyCell pn pd (rowGet row key) <;> simp [hc]

lemma scanStep_nNUMBER (pn pd : String → Option Int) (key : String)
    (st : ColScan) (row : DataRow) (h : isAbsent (rowGet row key) = false) :
    (scanStep pn pd key st row).nNUMBER =
      st.nNUMBER +
        (if classifyCell pn pd (rowGet row key) == ColumnType.NUMBER then 1 else 0) := by
  simp only [scanStep, h]
  cases hc : classifyCell pn pd (rowGet row key) <;> simp [hc]

lemma scanStep_nBOOLEAN (pn pd : String → Option Int) (key : String)
    (st : ColScan) (row : DataRow) (h : isAbsent (rowGet row key) = false) :
    (scanStep pn pd key st row).nBOOLEAN =
      st.nBOOLEAN +
        (if classifyCell pn pd (rowGet row key) == ColumnType.BOOLEAN then 1 else 0) := by
  simp only [scanStep, h]
  cases hc : classifyCell pn pd (rowGet row key) <;> simp [hc]

lemma presentValues_cons_absent (key : String) (row : DataRow)
    (rest : List DataRow) (h : isAbsent (rowGet row key) = true) :
    presentValues key (row :: rest) = presentValues key rest := by
  simp [presentValues, h]

lemma presentValues_cons_present (key : String) (row : DataRow)
    (rest : List DataRow) (h : isAbsent (rowGet row key) = false) :
    presentValues key (row :: rest) = rowGet row key :: presentValues key rest := by
  simp [presentValues, h]

/-- The profiling loop, characterized field by field over independent counts. -/
lemma scan_foldl (pn pd : String → Option Int) (key : String)
    (rows : List DataRow) : ∀ st : ColScan,
    (rows.foldl (scanStep pn pd key) st).values =
      st.values ++ presentValues key rows ∧
    (rows.foldl (scanStep pn pd key) st).nulls =
      st.nulls + rows.countP (fun r => isAbsent (rowGet r key)) ∧
    (rows.foldl (scanStep pn pd key) st).distinct.length ≤
      st.distinct.length + (presentValues key rows).length ∧
    (rows.foldl (scanStep pn pd key) st).nDATE =
      st.nDATE + (presentValues key rows).countP
        (fun v => classifyCell pn pd v == ColumnType.DATE) ∧
    (rows.foldl (scanStep pn pd key) st).nNUMBER =
      st.nNUMBER + (presentValues key rows).countP
        (fun v => classifyCell pn pd v == ColumnType.NUMBER) ∧
    (rows.foldl (scanStep pn pd key) st).nBOOLEAN =
      st.nBOOLEAN + (presentValues key rows).countP
        (fun v => classifyCell pn pd v == ColumnType.BOOLEAN) := by
  induction rows with
  | nil => intro st; simp [presentValues]
  | cons row rest ih =>
    intro st
    simp only [List.foldl_cons]
    obtain ⟨ih1, ih2, ih3, ih4, ih5, ih6⟩ := ih (scanStep pn pd key st row)
    by_cases habs : isAbsent (rowGet row key) = true
    · rw [scanStep_absent pn pd key st row habs] at ih1 ih2 ih3 ih4 ih5 ih6 ⊢
      rw [presentValues_cons_absent key row rest habs] at *
      refine ⟨by simpa using ih1, ?_, by simpa using ih3, by simpa using ih4,
        by simpa using ih5, by simpa using ih6⟩
      simp only [List.countP_cons, habs]
      simp at ih2 ⊢
      omega
    · rw [Bool.not_eq_true] at habs
      rw [presentValues_cons_present key row rest habs] at *
      refine ⟨?_, ?_, ?_, ?_, ?_, ?_⟩
      · rw [ih1, scanStep_values pn pd key st row habs]
        simp
      · rw [ih2, scanStep_nulls pn pd key st row habs]
        simp [List.countP_cons, habs]
      · refine le_trans ih3 ?_
        have := scanStep_distinct_le pn pd key st row habs
        simp only [List.length_cons]
        omega
      · rw [ih4, scanStep_nDATE pn pd key st row habs]
        simp only [List.countP_cons]
        split <;> simp_all <;> omega
      · rw [ih5, scanStep_nNUMBER pn pd key st row habs]
        simp only [List.countP_cons]
        split <;> simp_all <;> omega
      · rw [ih6, scanStep_nBOOLEAN pn pd key st row habs]
        simp only [List.countP_cons]
        split <;> simp_all <;> omega

lemma presentValues_length (key : String) (rows : List DataRow) :
    (presentValues key rows).length =
      rows.countP (fun r => !isAbsent (rowGet r key)) := by
  simp only [presentValues]
  rw [← List.countP_eq_length_filter, List.countP_map]
  rfl

/-- **C5**: for every column and row set, `nullCount` plus the number of
rows with a present (non-null, non-undefined, non-empty-string) value equals
the total row count, and `uniqueCount` is at most the number of present
rows. -/
theorem analyzeColumn_count_invariants (pn pd : String → Option Int)
    (key : String) (rows : List DataRow) :
    (analyzeColumn pn pd key rows).nullCount +
      (presentValues key rows).length = rows.length ∧
    (analyzeColumn pn pd key rows).uniqueCount ≤
      (presentValues key rows).length := by
  obtain ⟨-, h2, h3, -, -, -⟩ := scan_foldl pn pd key rows {}
  constructor
  · have hn : (analyzeColumn pn pd key rows).nullCount =
        rows.countP (fun r => isAbsent (rowGet r key)) := by
      simp only [analyzeColumn]
      simpa using h2
    rw [hn, presentValues_length]
    exact countP_not_split rows (fun r => isAbsent (rowGet r key))
  · have hu : (analyzeColumn pn pd key rows).uniqueCount =
        (rows.foldl (scanStep pn pd key) {}).distinct.length := by
      simp only [analyzeColumn]
    rw [hu]
    simpa using h3

/-- **C3 counterexample**: a column whose present values are exactly 80
percent numeric (4 numbers and 1 plain string out of 5) is *not* classified
NUMBER — the source compares with strict `>`, so it falls through to
STRING. -/
theorem analyzeColumn_eighty_percent_not_number :
    (presentValues "x" eightyRows).length = 5 ∧
    (presentValues "x" eightyRows).countP
      (fun v => classifyCell noParse noParse v == ColumnType.NUMBER) = 4 ∧
    (analyzeColumn noParse noParse "x" eightyRows).type = ColumnType.STRING ∧
    (analyzeColumn noParse noParse "x" eightyRows).type ≠ ColumnType.NUMBER := by
  refine ⟨by decide, by decide, by decide, by decide⟩

/-- **C4 counterexample**: a STRING column holding one repeated value
(`uniqueCount = 1`) *is* reported as a dimension — the source has no lower
bound on `uniqueCount` (`1 ≤ 100` and `10 * 1 < 9 * 2` both hold). -/
theorem analyzeSheetData_constant_column_is_dimension :
    (analyzeColumn noParse noParse "c" constantRows).uniqueCount = 1 ∧
    (analyzeColumn noParse noParse "c" constantRows).type = ColumnType.STRING ∧
    (analyzeSheetData noParse noParse constantRows "sheet").dimensions = ["c"] := by
  refine ⟨by decide, by decide, by decide⟩

/-- **C10**: join keys are compared after `String()` coercion, under which
`null` and `undefined` stringify to `"null"` and `"undefined"`; a left row
whose key is `null` therefore matches a right row whose key is `null`: with
LEFT it receives the right row's actual values (here `R.v = 7`, not the
null fill), with INNER it is kept (`rowCount = 1`, not dropped). -/
theorem executeDataModel_null_keys_match :
    cellToString CellValue.null = "null" ∧
    cellToString CellValue.undef = "undefined" ∧
    (okOr (executeDataModel nullKeyTables (nullKeyModel JoinType.LEFT))).rows =
      [[("k", CellValue.null), ("a", CellValue.num 1),
        ("R.k", CellValue.null), ("R.v", CellValue.num 7)]] ∧
    (okOr (executeDataModel nullKeyTables (nullKeyModel JoinType.INNER))).rowCount = 1 := by
  refine ⟨rfl, rfl, by decide, by decide⟩

/-- **C3 (amended)**: the inferred type is chosen by the fixed priority
cascade over the present values with STRICT thresholds: DATE when more than
80 percent parsed as DATE, else NUMBER when more than 80 percent parsed as
NUMBER, else BOOLEAN when more than 90 percent parsed as BOOLEAN, else
STRING; a column whose numeric fraction is exactly 80 percent is NOT
classified NUMBER. -/
theorem analyzeColumn_type_cascade (pn pd : String → Option Int)
    (key : String) (rows : List DataRow) :
    (analyzeColumn pn pd key rows).type = thresholdType pn pd key rows := by
  obtain ⟨h1, -, -, h4, h5, h6⟩ := scan_foldl pn pd key rows {}
  have ht : (analyzeColumn pn pd key rows).type =
      decideType (rows.foldl (scanStep pn pd key) {}) := by
    simp only [analyzeColumn]
  rw [ht]
  simp only [decideType, thresholdType, h4, h5, h6, h1]
  simp

/-- **C4 (amended)**: the dimensions list consists of exactly the
STRING-typed columns with `uniqueCount ≤ 100` and
`uniqueCount < 0.9 * rowCount` — with NO lower bound, so a constant column
(`uniqueCount = 1`) qualifies — sorted ascending by `uniqueCount`. -/
theorem analyzeSheetData_dimensions_spec (pn pd : String → Option Int)
    (rows : List DataRow) (nm : String) :
    ∃ ds : List ColumnProfile,
      (analyzeSheetData pn pd rows nm).dimensions = ds.map ColumnProfile.name ∧
      List.Perm ds ((analyzeSheetData pn pd rows nm).columns.filter
        (fun c => c.type == ColumnType.STRING && c.uniqueCount ≤ 100 &&
          10 * c.uniqueCount < 9 * rows.length)) ∧
      List.Sorted (fun a b => a.uniqueCount ≤ b.uniqueCount) ds := by
  haveI : IsTotal ColumnProfile (fun a b => a.uniqueCount ≤ b.uniqueCount) :=
    ⟨fun a b => Nat.le_total a.uniqueCount b.uniqueCount⟩
  haveI : IsTrans ColumnProfile (fun a b => a.uniqueCount ≤ b.uniqueCount) :=
    ⟨fun _ _ _ => Nat.le_trans⟩
  refine ⟨((analyzeSheetData pn pd rows nm).columns.filter
      (fun c => c.type == ColumnType.STRING && c.uniqueCount ≤ 100 &&
        10 * c.uniqueCount < 9 * rows.length)).insertionSort
      (fun a b => a.uniqueCount ≤ b.uniqueCount), ?_, ?_, ?_⟩
  · rfl
  · exact List.perm_insertionSort _ _
  · exact List.sorted_insertionSort _ _

/-! ## Join-engine row-count lemmas -/

lemma filterMap_length_eq {α β} (f : α → Option β) (l : List α)
    (h : ∀ a ∈ l, (f a).isSome) : (l.filterMap f).length = l.length := by
  induction l with
  | nil => simp
  | cons a l ih =>
    rcases hfa : f a with _ | b
    · have := h a (by simp)
      rw [hfa] at this
      simp at this
    · simp only [List.filterMap_cons, hfa, List.length_cons]
      rw [ih (fun x hx => h x (by simp [hx]))]

lemma applyJoin_rows_le (tables : TableCollection) (acc : JoinAcc)
    (j : JoinConfig) :
    (applyJoin tables acc j).rows.length ≤ acc.rows.length := by
  unfold applyJoin
  cases tcGet tables j.rightTableId with
  | none => exact le_refl _
  | some rt => exact List.length_filterMap_le _ _

lemma joinRow_left_isSome (j : JoinConfig) (rt : Table)
    (rm : List (String × DataRow)) (leftRow : DataRow)
    (h : j.joinType = JoinType.LEFT) :
    (joinRow j rt rm leftRow).isSome := by
  unfold joinRow
  cases mapGet rm (cellToString (rowGet leftRow j.leftColumn)) with
  | some r => simp
  | none => simp [h]

lemma applyJoin_left_rows_eq (tables : TableCollection) (acc : JoinAcc)
    (j : JoinConfig) (h : j.joinType = JoinType.LEFT) :
    (applyJoin tables acc j).rows.length = acc.rows.length := by
  unfold applyJoin
  cases tcGet tables j.rightTableId with
  | none => rfl
  | some rt =>
    exact filterMap_length_eq _ _
      (fun r _ => joinRow_left_isSome j rt _ r h)

lemma foldl_applyJoin_rows_le (tables : TableCollection) :
    ∀ (joins : List JoinConfig) (acc : JoinAcc),
      ((joins.foldl (applyJoin tables) acc).rows.length ≤ acc.rows.length)
  | [], acc => le_refl _
  | j :: joins, acc =>
    le_trans (foldl_applyJoin_rows_le tables joins (applyJoin tables acc j))
      (applyJoin_rows_le tables acc j)

lemma foldl_applyJoin_rows_eq (tables : TableCollection) :
    ∀ (joins : List JoinConfig) (acc : JoinAcc),
      (∀ j ∈ joins, j.joinType = JoinType.LEFT) →
      (joins.foldl (applyJoin tables) acc).rows.length = acc.rows.length
  | [], acc, _ => rfl
  | j :: joins, acc, h => by
    have h1 := applyJoin_left_rows_eq tables acc j (h j (by simp))
    have h2 := foldl_applyJoin_rows_eq tables joins (applyJoin tables acc j)
      (fun x hx => h x (by simp [hx]))
    simp only [List.foldl_cons]
    omega

/-- **C2**: a successful `executeDataModel` run returns at most as many rows
as the base table (each LEFT step preserves the accumulator row count and
each INNER step only drops non-matching rows), and exactly the base table's
row count when every join is LEFT. -/
theorem executeDataModel_row_count (tables : TableCollection)
    (model : DataModel) (base : Table) (ds : DataSet)
    (hbase : tcGet tables model.baseTableId = some base)
    (hok : executeDataModel tables model = Except.ok ds) :
    ds.rowCount ≤ base.rows.length ∧
    ((∀ j ∈ model.joins, j.joinType = JoinType.LEFT) →
      ds.rowCount = base.rows.length) := by
  unfold executeDataModel at hok
  rw [hbase] at hok
  simp only [Except.ok.injEq] at hok
  subst hok
  have hinit : (base.rows.map (fun r => r)).length = base.rows.length := by simp
  constructor
  · have := foldl_applyJoin_rows_le tables model.joins
      { rows := base.rows.map (fun r => r), columns := base.columns,
        dimensions := base.dimensions }
    simpa [hinit] using this
  · intro hall
    have := foldl_applyJoin_rows_eq tables model.joins
      { rows := base.rows.map (fun r => r), columns := base.columns,
        dimensions := base.dimensions } hall
    simpa [hinit] using this

/-- Witness for C2 at Scenario A (one LEFT join): both hypotheses hold by
computation and the conclusion follows by the theorem. -/
theorem executeDataModel_row_count_witness :
    tcGet tcAB modelOneJoin.baseTableId = some ordersT ∧
    dsOneJoin.rowCount ≤ ordersT.rows.length ∧
    ((∀ j ∈ modelOneJoin.joins, j.joinType = JoinType.LEFT) →
      dsOneJoin.rowCount = ordersT.rows.length) :=
  ⟨rfl,
   (executeDataModel_row_count tcAB modelOneJoin ordersT dsOneJoin rfl rfl).1,
   (executeDataModel_row_count tcAB modelOneJoin ordersT dsOneJoin rfl rfl).2⟩

/-! ## Missing-table behaviour -/

lemma applyJoin_missing (tables : TableCollection) (acc : JoinAcc)
    (j : JoinConfig) (h : tcGet tables j.rightTableId = none) :
    applyJoin tables acc j = acc := by
  unfold applyJoin
  rw [h]

lemma foldl_applyJoin_filter_found (tables : TableCollection) :
    ∀ (joins : List JoinConfig) (acc : JoinAcc),
      (joins.filter (fun j => (tcGet tables j.rightTableId).isSome)).foldl
        (applyJoin tables) acc = joins.foldl (applyJoin tables) acc
  | [], _ => rfl
  | j :: joins, acc => by
    cases h : tcGet tables j.rightTableId with
    | none =>
      simp only [List.filter_cons, h, Option.isSome_none, List.foldl_cons]
      rw [applyJoin_missing tables acc j h]
      exact foldl_applyJoin_filter_found tables joins acc
    | some rt =>
      simp only [List.filter_cons, h, Option.isSome_some, List.foldl_cons]
      exact foldl_applyJoin_filter_found tables joins (applyJoin tables acc j)

/-- **C6 counterexample**: a join whose right table is absent raises no
error and leaves the data untouched, but it does NOT contribute "nothing to
the result": the `fileName` join count includes the skipped join, so the
returned dataset differs from the run with the join removed. -/
theorem executeDataModel_skipped_join_affects_fileName :
    (executeDataModel tablesOnlyOrders modelOneJoin).isOk = true ∧
    (okOr (executeDataModel tablesOnlyOrders modelOneJoin)).rows =
      (okOr (executeDataModel tablesOnlyOrders modelNoJoins)).rows ∧
    okOr (executeDataModel tablesOnlyOrders modelOneJoin) ≠
      okOr (executeDataModel tablesOnlyOrders modelNoJoins) ∧
    (okOr (executeDataModel tablesOnlyOrders modelOneJoin)).fileName ≠
      (okOr (executeDataModel tablesOnlyOrders modelNoJoins)).fileName := by
  refine ⟨by decide, by decide, by decide, by decide⟩

/-- **C6 (amended)**: `executeDataModel` fails exactly when
`model.baseTableId` is absent from the collection; a join whose
`rightTableId` is absent is skipped silently — it raises no error and
contributes nothing to the rows, columns, rowCount or dimensions of the
result (only the `fileName` join count reflects it). -/
theorem executeDataModel_error_and_skip (tables : TableCollection)
    (model : DataModel) :
    ((∃ e, executeDataModel tables model = Except.error e) ↔
      tcGet tables model.baseTableId = none) ∧
    (executeDataModel tables model).map
        (fun ds => (ds.rows, ds.columns, ds.rowCount, ds.dimensions)) =
      (executeDataModel tables
        { model with joins :=
            model.joins.filter (fun j => (tcGet tables j.rightTableId).isSome) }).map
        (fun ds => (ds.rows, ds.columns, ds.rowCount, ds.dimensions)) := by
  cases hb : tcGet tables model.baseTableId with
  | none =>
    constructor
    · exact ⟨fun _ => rfl, fun _ =>
        ⟨"Base table not found", by unfold executeDataModel; rw [hb]⟩⟩
    · unfold executeDataModel
      rw [hb]
  | some base =>
    refine ⟨⟨fun he => ?_, fun h => ?_⟩, ?_⟩
    · obtain ⟨e, he⟩ := he
      unfold executeDataModel at he
      rw [hb] at he
      exact Except.noConfusion he
    · exact Option.noConfusion h
    · unfold executeDataModel
      rw [hb]
      simp only [Except.map]
      rw [foldl_applyJoin_filter_found tables model.joins]

/-! ## Hash-map last-write-wins -/

lemma mapGet_cons (x : String × DataRow) (l : List (String × DataRow))
    (k : String) :
    mapGet (x :: l) k = if x.1 == k then some x.2 else mapGet l k := by
  by_cases h : x.1 == k <;> simp [mapGet, List.find?_cons, h]

lemma mapGet_map_overwrite_ne (m : List (String × DataRow)) (kr k : String)
    (v : DataRow) (h : (kr == k) = false) :
    mapGet (m.map (fun p => if p.1 == kr then (kr, v) else p)) k =
      mapGet m k := by
  induction m with
  | nil => rfl
  | cons p m ih =>
    simp only [List.map_cons]
    by_cases hp : (p.1 == kr) = true
    · have hpk : p.1 = kr := by simpa using hp
      rw [if_pos hp, mapGet_cons, mapGet_cons, ih]
      simp only [hpk, h]
      simp
    · rw [if_neg hp, mapGet_cons, mapGet_cons, ih]

lemma mapGet_map_overwrite_self (m : List (String × DataRow)) (kr : String)
    (v : DataRow) (h : m.any (fun p => p.1 == kr) = true) :
    mapGet (m.map (fun p => if p.1 == kr then (kr, v) else p)) kr =
      some v := by
  induction m with
  | nil => simp at h
  | cons p m ih =>
    simp only [List.map_cons]
    by_cases hp : (p.1 == kr) = true
    · rw [if_pos hp, mapGet_cons]
      simp
    · have hm : m.any (fun p => p.1 == kr) = true := by
        simpa [List.any_cons, hp] using h
      rw [if_neg hp, mapGet_cons, if_neg hp]
      exact ih hm

/-- `Map.set` then `Map.get`: the freshly set key reads back the new value,
every other key is untouched. -/
lemma mapGet_mapSet (m : List (String × DataRow)) (kr k : String)
    (v : DataRow) :
    mapGet (mapSet m kr v) k = if kr == k then some v else mapGet m k := by
  by_cases hany : m.any (fun p => p.1 == kr) = true
  · have hset : mapSet m kr v =
        m.map (fun p => if p.1 == kr then (kr, v) else p) := by
      simp [mapSet, hany]
    rw [hset]
    by_cases hk : (kr == k) = true
    · have hkk : kr = k := by simpa using hk
      subst hkk
      rw [mapGet_map_overwrite_self m kr v hany]
      simp
    · rw [mapGet_map_overwrite_ne m kr k v (by simpa using hk)]
      simp [hk]
  · have hset : mapSet m kr v = m ++ [(kr, v)] := by
      unfold mapSet
      rw [if_neg hany]
    rw [hset]
    have hfind : m.find? (fun p => p.1 == kr) = none := by
      rw [List.find?_eq_none]
      intro x hx hbx
      exact hany (List.any_eq_true.mpr ⟨x, hx, hbx⟩)
    by_cases hk : (kr == k) = true
    · have hkk : kr = k := by simpa using hk
      subst hkk
      simp [mapGet, List.find?_append, hfind, List.find?_cons]
    · simp [mapGet, List.find?_append, List.find?_cons, hk]

lemma buildRightMap_append (rows : List DataRow) (row : DataRow)
    (col : String) :
    buildRightMap (rows ++ [row]) col =
      mapSet (buildRightMap rows col) (cellToString (rowGet row col)) row := by
  simp [buildRightMap, List.foldl_append]

/-- **C7**: when several right rows stringify to the same join key, the hash
map holds, for every key, exactly the LAST matching right row in the right
table's row order (`Map.set` overwrites); and each join step emits at most
one output row per accumulator row, never one per matching right row. -/
theorem buildRightMap_last_wins (rows : List DataRow) (col k : String) :
    mapGet (buildRightMap rows col) k =
      (rows.reverse.find? (fun row => cellToString (rowGet row col) == k)) ∧
    ∀ (tables : TableCollection) (acc : JoinAcc) (j : JoinConfig),
      (applyJoin tables acc j).rows.length ≤ acc.rows.length := by
  constructor
  · induction rows using List.reverseRecOn with
    | nil => rfl
    | append_singleton rows row ih =>
      rw [buildRightMap_append, mapGet_mapSet, List.reverse_append]
      simp only [List.reverse_singleton, List.singleton_append, List.find?_cons]
      by_cases hp : (cellToString (rowGet row col) == k) = true
      · simp [hp]
      · simp only [hp]
        simpa using ih
  · intro tables acc j
    exact applyJoin_rows_le tables acc j

/-! ## Join-suggester properties -/

lemma foldl_preserve {α β} (P : β → Prop) (f : β → α → β)
    (hf : ∀ b a, P b → P (f b a)) :
    ∀ (l : List α) (b : β), P b → P (l.foldl f b)
  | [], _, hb => hb
  | a :: l, b, hb => foldl_preserve P f hf l (f b a) (hf b a hb)

lemma strategy1_joinType (bt dt : Table) (j : JoinConfig)
    (h : strategy1 bt dt = some j) : j.joinType = JoinType.LEFT := by
  unfold strategy1 at h
  refine foldl_preserve
    (P := fun o : Option JoinConfig => ∀ x, o = some x → x.joinType = JoinType.LEFT)
    _ ?_ bt.columns none (fun x hx => Option.noConfusion hx) j h
  intro b a hb
  refine foldl_preserve
    (P := fun o : Option JoinConfig => ∀ x, o = some x → x.joinType = JoinType.LEFT)
    _ ?_ dt.columns b hb
  intro b' a' hb' x hx
  by_cases h1 : (strToLower a.name == strToLower a'.name) = true
  · rw [if_pos h1] at hx
    by_cases h2 : nearUnique a'.uniqueCount dt.rowCount = true
    · rw [if_pos h2] at hx
      cases hx
      rfl
    · rw [if_neg h2] at hx
      exact hb' x hx
  · rw [if_neg h1] at hx
    exact hb' x hx

lemma strategy2_joinType (bt dt : Table) (j : JoinConfig)
    (h : strategy2 bt dt = some j) : j.joinType = JoinType.LEFT := by
  unfold strategy2 at h
  simp only [] at h
  split at h
  · exact Option.noConfusion h
  · split at h
    · split at h
      · exact Option.noConfusion h
      · cases h
        rfl
    · exact Option.noConfusion h

lemma suggestJoins_joinType (baseTableId : String) (tables : TableCollection)
    (j : JoinConfig) (h : j ∈ suggestJoins baseTableId tables) :
    j.joinType = JoinType.LEFT := by
  unfold suggestJoins at h
  split at h
  · simp at h
  · refine foldl_preserve
      (P := fun l : List JoinConfig => ∀ x ∈ l, x.joinType = JoinType.LEFT)
      _ ?_ _ [] (by intro x hx; simp at hx) j h
    rename_i bt _
    intro l dt hl x hx
    cases hs1 : strategy1 bt dt with
    | some j1 =>
      simp only [hs1] at hx
      rcases List.mem_append.mp hx with hx | hx
      · exact hl x hx
      · have hx1 : x = j1 := by simpa using hx
        subst hx1
        exact strategy1_joinType bt dt x hs1
    | none =>
      simp only [hs1] at hx
      cases hs2 : strategy2 bt dt with
      | some j2 =>
        simp only [hs2] at hx
        rcases List.mem_append.mp hx with hx | hx
        · exact hl x hx
        · have hx2 : x = j2 := by simpa using hx
          subst hx2
          exact strategy2_joinType bt dt x hs2
      | none =>
        simp only [hs2] at hx
        exact hl x hx

/-- **C8**: Scenario E — a base table with a `customer_id` column and a
`Customers` table with a near-unique `id` column and no case-insensitive
column-name overlap yields exactly one suggestion, the Strategy-B LEFT join
`customer_id = Customers.id`; and every JoinConfig ever emitted by
`suggestJoins` has joinType LEFT. -/
theorem suggestJoins_scenarioE_and_always_left :
    suggestJoins "Orders" scenETables = [scenEJoin] ∧
    ∀ (baseTableId : String) (tables : TableCollection) (j : JoinConfig),
      j ∈ suggestJoins baseTableId tables → j.joinType = JoinType.LEFT := by
  exact ⟨by decide, fun b t j h => suggestJoins_joinType b t j h⟩

/-- Witness for C8: the Scenario E suggestion is itself a member, and the
theorem yields its LEFT join type. -/
theorem suggestJoins_scenarioE_witness :
    scenEJoin ∈ suggestJoins "Orders" scenETables ∧
    scenEJoin.joinType = JoinType.LEFT :=
  ⟨by decide,
   suggestJoins_scenarioE_and_always_left.2 "Orders" scenETables scenEJoin (by decide)⟩

/-! ## Column-name uniqueness -/

lemma qualName_data (t c : String) :
    (qualName t c).data = t.data ++ '.' :: c.data := by
  simp [qualName, String.data_append]

lemma dot_split : ∀ (a b x y : List Char), '.' ∉ a → '.' ∉ b →
    a ++ '.' :: x = b ++ '.' :: y → a = b ∧ x = y
  | [], [], x, y, _, _, h => by simpa using h
  | [], d :: bs, x, y, _, hb, h => by
    simp only [List.nil_append, List.cons_append, List.cons.injEq] at h
    exact absurd (h.1 ▸ List.mem_cons_self d bs) hb
  | c :: as, [], x, y, ha, _, h => by
    simp only [List.nil_append, List.cons_append, List.cons.injEq] at h
    exact absurd (h.1 ▸ List.mem_cons_self c as) ha
  | c :: as, d :: bs, x, y, ha, hb, h => by
    simp only [List.cons_append, List.cons.injEq] at h
    obtain ⟨hcd, htail⟩ := h
    obtain ⟨h1, h2⟩ := dot_split as bs x y
      (fun hm => ha (List.mem_cons_of_mem c hm))
      (fun hm => hb (List.mem_cons_of_mem d hm)) htail
    exact ⟨by rw [hcd, h1], h2⟩

lemma qualName_inj (t1 t2 c1 c2 : String) (h1 : '.' ∉ t1.data)
    (h2 : '.' ∉ t2.data) (he : qualName t1 c1 = qualName t2 c2) :
    t1 = t2 ∧ c1 = c2 := by
  have hd : t1.data ++ '.' :: c1.data = t2.data ++ '.' :: c2.data := by
    rw [← qualName_data, ← qualName_data, he]
  obtain ⟨ht, hc⟩ := dot_split _ _ _ _ h1 h2 hd
  exact ⟨String.ext ht, String.ext hc⟩

lemma qualName_left_inj (t : String) : Function.Injective (qualName t) := by
  intro c1 c2 he
  have hd := congrArg String.data he
  rw [qualName_data, qualName_data] at hd
  have := List.append_cancel_left hd
  simp only [List.cons.injEq, true_and] at this
  exact String.ext this

lemma dot_mem_qualName (t c : String) : '.' ∈ (qualName t c).data := by
  rw [qualName_data]
  simp

lemma pairwise_imp_mem {α} {R S : α → α → Prop} :
    ∀ {l : List α}, (∀ a b, a ∈ l → b ∈ l → R a b → S a b) →
      l.Pairwise R → l.Pairwise S
  | [], _, _ => List.Pairwise.nil
  | a :: l, h, hp => by
    obtain ⟨hhead, htail⟩ := List.pairwise_cons.mp hp
    refine List.pairwise_cons.mpr ⟨?_, ?_⟩
    · intro b hb
      exact h a b (List.mem_cons_self a l) (List.mem_cons_of_mem a hb) (hhead b hb)
    · exact pairwise_imp_mem
        (fun x y hx hy => h x y (List.mem_cons_of_mem a hx) (List.mem_cons_of_mem a hy))
        htail

lemma applyJoin_columns_found (tables : TableCollection) (acc : JoinAcc)
    (j : JoinConfig) (rt : Table) (ht : tcGet tables j.rightTableId = some rt) :
    (applyJoin tables acc j).columns.map ColumnProfile.name =
      acc.columns.map ColumnProfile.name ++
        rt.columns.map (fun c => qualName rt.tableName c.name) := by
  unfold applyJoin
  rw [ht]
  simp [List.map_map, Function.comp_def]

lemma foldl_applyJoin_columns (tables : TableCollection) :
    ∀ (joins : List JoinConfig) (acc : JoinAcc),
      (joins.foldl (applyJoin tables) acc).columns.map ColumnProfile.name =
        acc.columns.map ColumnProfile.name ++
          (foundRights tables joins).flatMap
            (fun t => t.columns.map (fun c => qualName t.tableName c.name))
  | [], acc => by simp [foundRights]
  | j :: joins, acc => by
    cases ht : tcGet tables j.rightTableId with
    | none =>
      rw [List.foldl_cons, applyJoin_missing tables acc j ht,
        foldl_applyJoin_columns tables joins acc]
      simp [foundRights, List.filterMap_cons, ht]
    | some rt =>
      rw [List.foldl_cons, foldl_applyJoin_columns tables joins (applyJoin tables acc j),
        applyJoin_columns_found tables acc j rt ht]
      simp [foundRights, List.filterMap_cons, ht, List.append_assoc]

/-- **C1 counterexample**: the claim fails as stated — a model whose two
joins reference the same right table produces the `Customers.*` column
names twice, so the unified dataset's column names are not unique. -/
theorem executeDataModel_columns_dup_counterexample :
    executeDataModel tcAB modelTwoJoins = Except.ok dsTwoJoins ∧
    ¬ (dsTwoJoins.columns.map ColumnProfile.name).Nodup :=
  ⟨rfl, by decide⟩

/-- **C1 (amended)**: after a successful `executeDataModel`, the column
names of the returned dataset are unique PROVIDED the base table's column
names are duplicate-free and dot-free, each actually-joined right table has
duplicate-free column names and a dot-free table name, and the
actually-joined right tables have pairwise distinct table names.  (Joining
the same table twice — or tables whose names collide — duplicates the
prefixed names, and a dot inside a table name can make two prefixed names
collide.) -/
theorem executeDataModel_columns_nodup
    (tables : TableCollection) (model : DataModel) (base : Table)
    (ds : DataSet)
    (hbase : tcGet tables model.baseTableId = some base)
    (hok : executeDataModel tables model = Except.ok ds)
    (hbn : (base.columns.map ColumnProfile.name).Nodup)
    (hbd : ∀ c ∈ base.columns, '.' ∉ c.name.data)
    (hrn : ∀ t ∈ foundRights tables model.joins,
      (t.columns.map ColumnProfile.name).Nodup ∧ '.' ∉ t.tableName.data)
    (htn : ((foundRights tables model.joins).map Table.tableName).Nodup) :
    (ds.columns.map ColumnProfile.name).Nodup := by
  unfold executeDataModel at hok
  rw [hbase] at hok
  simp only [Except.ok.injEq] at hok
  subst hok
  have hcols := foldl_applyJoin_columns tables model.joins
    { rows := base.rows.map (fun r => r), columns := base.columns,
      dimensions := base.dimensions }
  simp only [hcols]
  rw [List.nodup_append]
  refine ⟨hbn, ?_, ?_⟩
  · rw [List.nodup_flatMap]
    constructor
    · intro t htm
      obtain ⟨htnn, -⟩ := hrn t htm
      have hmm : t.columns.map (fun c => qualName t.tableName c.name) =
          (t.columns.map ColumnProfile.name).map (qualName t.tableName) := by
        simp [List.map_map, Function.comp_def]
      rw [hmm]
      exact htnn.map (qualName_left_inj t.tableName)
    · have hpw : (foundRights tables model.joins).Pairwise
          (fun a b => a.tableName ≠ b.tableName) := by
        have := htn
        rw [List.Nodup, List.pairwise_map] at this
        exact this
      refine pairwise_imp_mem ?_ hpw
      intro a b ha hb hne
      intro x hxa hxb
      obtain ⟨-, hda⟩ := hrn a ha
      obtain ⟨-, hdb⟩ := hrn b hb
      obtain ⟨ca, -, hca⟩ := List.mem_map.mp hxa
      obtain ⟨cb, -, hcb⟩ := List.mem_map.mp hxb
      have : a.tableName = b.tableName :=
        (qualName_inj a.tableName b.tableName ca.name cb.name hda hdb
          (by rw [hca, hcb])).1
      exact hne this
  · intro x hxbase hxflat
    obtain ⟨c, hc, hcx⟩ := List.mem_map.mp hxbase
    obtain ⟨t, -, hxt⟩ := List.mem_flatMap.mp hxflat
    obtain ⟨ct, -, hct⟩ := List.mem_map.mp hxt
    have hdot : '.' ∈ x.data := by
      rw [← hct]
      exact dot_mem_qualName t.tableName ct.name
    rw [← hcx] at hdot
    exact hbd c hc hdot

/-- Witness for C1 (amended) at Scenario A: all side conditions hold for
the Orders plus Customers collection and the conclusion follows by the
theorem. -/
theorem executeDataModel_columns_nodup_witness :
    (dsOneJoin.columns.map ColumnProfile.name).Nodup :=
  executeDataModel_columns_nodup tcAB modelOneJoin ordersT dsOneJoin rfl rfl
    (by decide) (by decide) (by decide) (by decide)

/-! ## Heap frame property -/

lemma heapExtends_refl (h : Heap) : heapExtends h h := ⟨[], by simp⟩

lemma heapExtends_trans {h1 h2 h3 : Heap}
    (hab : heapExtends h1 h2) (hbc : heapExtends h2 h3) : heapExtends h1 h3 := by
  obtain ⟨e1, rfl⟩ := hab
  obtain ⟨e2, rfl⟩ := hbc
  exact ⟨e1 ++ e2, by simp⟩

lemma foldl_heapExtends {α β} (f : Heap × β → α → Heap × β)
    (hf : ∀ st a, heapExtends st.1 (f st a).1) :
    ∀ (l : List α) (st : Heap × β), heapExtends st.1 (l.foldl f st).1
  | [], st => heapExtends_refl st.1
  | a :: l, st =>
    heapExtends_trans (hf st a) (foldl_heapExtends f hf l (f st a))

lemma cloneRows_extends (h : Heap) (addrs : List Nat) :
    heapExtends h (cloneRows h addrs).1 := by
  unfold cloneRows
  exact foldl_heapExtends _ (fun st a => ⟨[heapRead st.1 a], rfl⟩) addrs (h, [])

lemma joinRowR_extends (j : JoinConfig) (rt : TableR)
    (rm : List (String × Nat)) (h : Heap) (a : Nat) :
    heapExtends h (joinRowR j rt rm h a).1 := by
  unfold joinRowR
  simp only []
  split
  · exact ⟨[_], rfl⟩
  · split
    · exact ⟨[_], rfl⟩
    · exact heapExtends_refl h

lemma applyJoinR_extends (tables : TableCollectionR) (st : Heap × JoinAccR)
    (j : JoinConfig) : heapExtends st.1 (applyJoinR tables st j).1 := by
  unfold applyJoinR
  cases tcGetR tables j.rightTableId with
  | none => exact heapExtends_refl st.1
  | some rt =>
    refine foldl_heapExtends _ ?_ st.2.rows (st.1, [])
    intro hn a
    rcases hjr : joinRowR j rt (buildRightMapR st.1 rt.rowAddrs j.rightColumn) hn.1 a
      with ⟨h', oa⟩
    have hext := joinRowR_extends j rt
      (buildRightMapR st.1 rt.rowAddrs j.rightColumn) hn.1 a
    rw [hjr] at hext
    cases oa <;> simp [hjr] <;> exact hext

/-- **C9**: `executeDataModel` never mutates its inputs.  At heap level the
engine only reads existing row objects and allocates fresh ones (shallow
copies and merged rows), so the output heap extends the input heap and every
address owned by the input tables still dereferences to its original row. -/
theorem executeDataModelR_frame (h : Heap) (tables : TableCollectionR)
    (model : DataModel) (h' : Heap) (ds : DataSetR)
    (hok : executeDataModelR h tables model = Except.ok (h', ds)) :
    (∃ ext, h' = h ++ ext) ∧
    ∀ a, a < h.length → heapRead h' a = heapRead h a := by
  unfold executeDataModelR at hok
  cases hb : tcGetR tables model.baseTableId with
  | none =>
    rw [hb] at hok
    exact Except.noConfusion hok
  | some bt =>
    rw [hb] at hok
    simp only [Except.ok.injEq, Prod.mk.injEq] at hok
    obtain ⟨hh, -⟩ := hok
    subst hh
    have e1 : heapExtends h (cloneRows h bt.rowAddrs).1 :=
      cloneRows_extends h bt.rowAddrs
    have e2 := foldl_heapExtends (applyJoinR tables)
      (applyJoinR_extends tables) model.joins
      ((cloneRows h bt.rowAddrs).1,
       { rows := (cloneRows h bt.rowAddrs).2,
         columns := bt.columns, dimensions := bt.dimensions })
    obtain ⟨ext, hexteq⟩ := heapExtends_trans e1 e2
    refine ⟨⟨ext, hexteq⟩, ?_⟩
    intro a ha
    rw [hexteq]
    unfold heapRead
    rw [List.getD_append _ _ _ _ ha]

/-- Witness for C9 at the heap-level Scenario A fixture: the run succeeds
by computation and the theorem yields preservation of all three input
rows. -/
theorem executeDataModelR_frame_witness :
    executeDataModelR heap0 tcR modelOneJoin = Except.ok heapRunResult ∧
    (∀ a, a < heap0.length → heapRead heapRunResult.1 a = heapRead heap0 a) :=
  ⟨rfl,
   (executeDataModelR_frame heap0 tcR modelOneJoin heapRunResult.1
      heapRunResult.2 rfl).2⟩

end DataDash
